import Mathlib

/-
Verification of the PMC query and retrieval engine
(frontend/src/lib/searchUtils.ts) against its design document.

The TypeScript functions applyFilters, sortItems, fuzzySearch and
getPopularGenres are embedded shallowly: strings are Lean String values,
optional fields are Option String, JavaScript arrays are Lean lists, and
the JavaScript runtime primitives that the code relies on (string
containment, toLowerCase, split, Array.prototype.sort, Date parsing,
object key enumeration) are modelled by explicit executable definitions
given below, each documented at its definition site.
-/

/-- The MediaItem record of the frontend API (lib/api.ts).  media_type and
status are closed string enumerations in TypeScript; at runtime they are
plain strings, so they are embedded as String.  The open metadata map is
embedded as an association list; no function studied here inspects it. -/
structure MediaItem where
  id : String
  title : String
  creator : String
  media_type : String
  status : String
  release_date : Option String := none
  genre : Option String := none
  description : Option String := none
  metadata : Option (List (String × String)) := none
  user_id : String := ""
  created_at : String := ""
  updated_at : String := ""
deriving DecidableEq, Repr

/-- The SearchFilters record of searchUtils.ts: five independently optional
string fields.  A TypeScript field that is absent (undefined) is none. -/
structure SearchFilters where
  media_type : Option String := none
  status : Option String := none
  genre : Option String := none
  creator : Option String := none
  release_year : Option String := none
deriving DecidableEq, Repr

/-- JavaScript truthiness of an optional string, as used by the guards
of the form `if (filters.genre)`: undefined and the empty string are
falsy, every other string is truthy. -/
def jsTruthy : Option String → Bool
  | none => false
  | some s => decide (s ≠ "")

/-- Model of String.prototype.toLowerCase restricted to the code points
where Char.toLower agrees with it (in particular all ASCII text). -/
def lowerStr (s : String) : String :=
  String.mk (s.toList.map Char.toLower)

/-- Tests whether the second character list occurs at the start of the
first. -/
def startsWithChars : List Char → List Char → Bool
  | _, [] => true
  | [], _ :: _ => false
  | a :: as, b :: bs => a == b && startsWithChars as bs

/-- Tests whether the second character list occurs contiguously anywhere
inside the first. -/
def containsChars : List Char → List Char → Bool
  | [], pat => pat.isEmpty
  | a :: as, pat => startsWithChars (a :: as) pat || containsChars as pat

/-- Model of String.prototype.includes: substring containment. -/
def jsIncludes (s pat : String) : Bool :=
  containsChars s.toList pat.toList

/-- applyFilters from searchUtils.ts.  The source copies the input array
and then conditionally reassigns it through three Array.prototype.filter
passes, one for each of the genre, creator and release_year fields; each
pass runs only when the corresponding field is truthy.  The media_type and
status fields of SearchFilters are never read by this function.  The
optional chain `item.genre?.toLowerCase().includes(x)` yields undefined
(falsy) when genre is absent, which the match models as false; likewise
for `item.release_date?.includes(x)`. -/
def applyFilters (items : List MediaItem) (filters : SearchFilters) : List MediaItem :=
  let f1 := if jsTruthy filters.genre then
      items.filter (fun item =>
        match item.genre with
        | some g => jsIncludes (lowerStr g) (lowerStr (filters.genre.getD ""))
        | none => false)
    else items
  let f2 := if jsTruthy filters.creator then
      f1.filter (fun item =>
        jsIncludes (lowerStr item.creator) (lowerStr (filters.creator.getD "")))
    else f1
  let f3 := if jsTruthy filters.release_year then
      f2.filter (fun item =>
        match item.release_date with
        | some d => jsIncludes d (filters.release_year.getD "")
        | none => false)
    else f2
  f3

/-- Model of String.prototype.split called with the single-space separator,
on character lists: `"a  b".split(" ")` keeps the empty piece between the
two spaces, and `"".split(" ")` is `[""]`. -/
def splitSpaceChars : List Char → List (List Char)
  | [] => [[]]
  | c :: cs =>
    if c = ' ' then [] :: splitSpaceChars cs
    else
      match splitSpaceChars cs with
      | [] => [[c]]
      | t :: ts => (c :: t) :: ts

/-- String-level wrapper for splitSpaceChars. -/
def jsSplitSpace (s : String) : List String :=
  (splitSpaceChars s.toList).map String.mk

/-- Drops leading whitespace characters from a character list. -/
def dropLeadingWs : List Char → List Char
  | [] => []
  | c :: cs => if c.isWhitespace then dropLeadingWs cs else c :: cs

/-- Model of String.prototype.trim on the whitespace characters covered
by Char.isWhitespace: removes whitespace from both ends. -/
def jsTrim (s : String) : String :=
  String.mk ((dropLeadingWs (dropLeadingWs s.toList).reverse).reverse)

/-- The composite searchable text fuzzySearch builds for one item:
title, creator, genre (or empty), description (or empty) and media_type
joined with single spaces, lower-cased. -/
def searchableText (item : MediaItem) : String :=
  lowerStr (String.intercalate " "
    [item.title, item.creator, item.genre.getD "", item.description.getD "", item.media_type])

/-- fuzzySearch from searchUtils.ts: a blank query (falsy after trim)
returns the input; otherwise the lower-cased query is split on the space
character, empty terms are dropped, and an item is kept when every term
occurs inside its composite searchable text. -/
def fuzzySearch (items : List MediaItem) (query : String) : List MediaItem :=
  if jsTrim query = "" then items
  else
    let searchTerms := (jsSplitSpace (lowerStr query)).filter (fun term => decide (term.length > 0))
    items.filter (fun item =>
      searchTerms.all (fun term => jsIncludes (searchableText item) term))

/-- Model of the JavaScript expression `x || ""` applied to a string that
may be undefined: undefined and the empty string are falsy and give "",
any other string is returned unchanged. -/
def jsOrEmpty : Option String → String
  | none => ""
  | some s => if s = "" then "" else s

/-- Strict lexicographic comparison of character lists by code point,
the order JavaScript applies when two strings are compared with `<`. -/
def lexLt : List Char → List Char → Bool
  | [], [] => false
  | [], _ :: _ => true
  | _ :: _, [] => false
  | a :: as, b :: bs => if a < b then true else if b < a then false else lexLt as bs

/-- A comparison key of the sortItems comparator: each switch branch
assigns either two strings or two numbers, and a number may be NaN when
Date parsing fails (modelled by none). -/
inductive SortKey where
  | str (s : String)
  | num (n : Option Int)
deriving DecidableEq, Repr

/-- The JavaScript `<` test on two comparison keys.  Every comparison of
a NaN number is false. -/
def keyLt : SortKey → SortKey → Bool
  | .str a, .str b => lexLt a.toList b.toList
  | .num (some a), .num (some b) => decide (a < b)
  | .num _, .num _ => false
  | .str _, .num _ => false
  | .num _, .str _ => false

/-- Number of days between 1970-01-01 and the given civil date
(proleptic Gregorian calendar). -/
def daysFromCivil (y mo d : Nat) : Int :=
  let yp : Nat := if mo ≤ 2 then y - 1 else y
  let mp : Nat := if mo ≤ 2 then mo + 9 else mo - 3
  let doy : Nat := (153 * mp + 2) / 5 + d - 1
  ((yp * 365 + yp / 4 + yp / 400 + doy : Nat) : Int) - ((yp / 100 : Nat) : Int) - 719468

/-- Epoch milliseconds of a civil date-time with a UTC offset given in
minutes. -/
def msOfDateTime (y mo d h mi sec ms : Nat) (offMinutes : Int) : Int :=
  ((daysFromCivil y mo d) * 86400 + ((h * 3600 + mi * 60 + sec : Nat) : Int)) * 1000
    + (ms : Int) - offMinutes * 60000

/-- Reads exactly n decimal digits from the front of a character list and
returns their value together with the remaining characters. -/
def readNDigits : Nat → List Char → Option (Nat × List Char)
  | 0, cs => some (0, cs)
  | _ + 1, [] => none
  | n + 1, c :: cs =>
    if c.isDigit then
      match readNDigits n cs with
      | some (v, rest) => some ((c.toNat - 48) * 10 ^ n + v, rest)
      | none => none
    else none

/-- Reads an optional millisecond part: either nothing, or a dot followed
by exactly three digits. -/
def parseMillis : List Char → Option (Nat × List Char)
  | '.' :: cs =>
    match readNDigits 3 cs with
    | some (v, rest) => some (v, rest)
    | none => none
  | cs => some (0, cs)

/-- Reads a trailing UTC offset: the letter Z, or a sign followed by
HH:MM, ending the string.  The result is the offset in minutes. -/
def parseOffsetTail : List Char → Option Int
  | ['Z'] => some 0
  | c :: cs =>
    if c = '+' ∨ c = '-' then
      match readNDigits 2 cs with
      | some (oh, ':' :: cs2) =>
        match readNDigits 2 cs2 with
        | some (om, []) =>
          if oh ≤ 23 ∧ om ≤ 59 then
            some (if c = '-' then -((oh * 60 + om : Nat) : Int) else ((oh * 60 + om : Nat) : Int))
          else none
        | _ => none
      | _ => none
    else none
  | [] => none

/-- Model of `new Date(s).getTime()` on the unambiguous part of the
ECMAScript Date Time String Format: a date YYYY-MM-DD taken at UTC
midnight, optionally followed by THH:MM:SS, an optional .sss millisecond
part, and an explicit offset (Z or a signed HH:MM).  Strings outside this
subset, including date-times without an offset (which ECMAScript reads in
the local zone) and strings Date cannot parse at all (NaN), are mapped to
none; the sortItems comparator treats none exactly as NaN, every
comparison against it being false. -/
def jsDateGetTime (s : String) : Option Int :=
  match readNDigits 4 s.toList with
  | some (y, '-' :: cs1) =>
    match readNDigits 2 cs1 with
    | some (mo, '-' :: cs2) =>
      match readNDigits 2 cs2 with
      | some (d, rest) =>
        if 1 ≤ mo ∧ mo ≤ 12 ∧ 1 ≤ d ∧ d ≤ 31 then
          match rest with
          | [] => some (msOfDateTime y mo d 0 0 0 0 0)
          | 'T' :: cs3 =>
            match readNDigits 2 cs3 with
            | some (h, ':' :: cs4) =>
              match readNDigits 2 cs4 with
              | some (mi, ':' :: cs5) =>
                match readNDigits 2 cs5 with
                | some (sec, cs6) =>
                  if h ≤ 23 ∧ mi ≤ 59 ∧ sec ≤ 59 then
                    match parseMillis cs6 with
                    | some (ms, cs7) =>
                      match parseOffsetTail cs7 with
                      | some off => some (msOfDateTime y mo d h mi sec ms off)
                      | none => none
                    | none => none
                  else none
                | _ => none
              | _ => none
            | _ => none
          | _ => none
        else none
      | _ => none
    | _ => none
  | _ => none

/-- The key the sortItems comparator computes for one item under a given
sort field, following the switch statement of the source: title and
creator are lower-cased, release_date falls back to the empty string,
created_at is parsed to an instant, genre is lower-cased with an empty
fallback, and any unrecognized field leaves the initial empty-string
key untouched (the switch has no default branch). -/
def sortKey (sortBy : String) (item : MediaItem) : SortKey :=
  match sortBy with
  | "title" => .str (lowerStr item.title)
  | "creator" => .str (lowerStr item.creator)
  | "release_date" => .str (jsOrEmpty item.release_date)
  | "created_at" => .num (jsDateGetTime item.created_at)
  | "genre" => .str (jsOrEmpty (item.genre.map lowerStr))
  | _ => .str ""

/-- The comparator passed to Array.prototype.sort by sortItems: ascending
order returns -1, 1 or 0 from the two `<` tests on the keys; any order
value other than "asc" takes the descending branch, which mirrors the
tests. -/
def sortCompare (sortBy order : String) (a b : MediaItem) : Ordering :=
  let av := sortKey sortBy a
  let bv := sortKey sortBy b
  if order = "asc" then
    if keyLt av bv then .lt else if keyLt bv av then .gt else .eq
  else
    if keyLt bv av then .lt else if keyLt av bv then .gt else .eq

/-- Stable insertion into a list ordered by a three-way comparator: the
new element passes every element strictly smaller than it and lands in
front of the first element it does not exceed.  When the element being
inserted originally preceded the list elements, ties therefore keep the
original order. -/
def insertCmp (cmp : α → α → Ordering) (a : α) : List α → List α
  | [] => [a]
  | b :: bs => if cmp a b = .gt then b :: insertCmp cmp a bs else a :: b :: bs

/-- Stable insertion sort by a three-way comparator.  ECMAScript requires
Array.prototype.sort to be stable, and for a consistent comparator the
stable result is unique, so this is a faithful model of `[...].sort(f)`. -/
def sortCmp (cmp : α → α → Ordering) : List α → List α
  | [] => []
  | a :: as => insertCmp cmp a (sortCmp cmp as)

/-- sortItems from searchUtils.ts: a copy of the input sorted by the
comparator built from the sort field and direction.  The TypeScript
parameter types SortField and SortOrder are erased at runtime and
parseSearchParams casts raw query-string values into them, so both are
embedded as String. -/
def sortItems (items : List MediaItem) (sortBy order : String) : List MediaItem :=
  sortCmp (sortCompare sortBy order) items

/-- Whitespace analogue of splitSpaceChars: splits a character list at
every whitespace character. -/
def splitWsChars : List Char → List (List Char)
  | [] => [[]]
  | c :: cs =>
    if c.isWhitespace then [] :: splitWsChars cs
    else
      match splitWsChars cs with
      | [] => [[c]]
      | t :: ts => (c :: t) :: ts

/-- Modelled from the spec: the Fuzzy Text Matcher contract of section 4.2
read literally, for comparison against fuzzySearch.  The query is
tokenized by whitespace into lower-cased terms, empty tokens are
discarded, a blank query returns the input unchanged, and an item is
included iff every term occurs as a substring of its composite
searchable text. -/
def fuzzySearchSpecWs (items : List MediaItem) (query : String) : List MediaItem :=
  if jsTrim query = "" then items
  else
    let terms := ((splitWsChars query.toList).map
        (fun t => String.mk (t.map Char.toLower))).filter (fun term => decide (term.length > 0))
    items.filter (fun item =>
      terms.all (fun term => jsIncludes (searchableText item) term))

/-- Reference fuzzy matcher that differs from the spec wording of
section 4.2 in exactly one point: tokenization splits at the space
character U+0020 only, not at arbitrary whitespace.  Terms are still
lower-cased individually and empty tokens discarded. -/
def fuzzySearchSpecSpace (items : List MediaItem) (query : String) : List MediaItem :=
  if jsTrim query = "" then items
  else
    let terms := ((splitSpaceChars query.toList).map
        (fun t => String.mk (t.map Char.toLower))).filter (fun term => decide (term.length > 0))
    items.filter (fun item =>
      terms.all (fun term => jsIncludes (searchableText item) term))

/-- The genre predicate a single applyFilters pass evaluates, folded into
one boolean: true outright when the genre field is not truthy. -/
def genrePred (filters : SearchFilters) (item : MediaItem) : Bool :=
  if jsTruthy filters.genre then
    match item.genre with
    | some g => jsIncludes (lowerStr g) (lowerStr (filters.genre.getD ""))
    | none => false
  else true

/-- The creator predicate of applyFilters, folded into one boolean. -/
def creatorPred (filters : SearchFilters) (item : MediaItem) : Bool :=
  if jsTruthy filters.creator then
    jsIncludes (lowerStr item.creator) (lowerStr (filters.creator.getD ""))
  else true

/-- The release_year predicate of applyFilters, folded into one boolean.
Note that, unlike the genre and creator passes, the source compares the
raw strings here without lower-casing either side. -/
def yearPred (filters : SearchFilters) (item : MediaItem) : Bool :=
  if jsTruthy filters.release_year then
    match item.release_date with
    | some d => jsIncludes d (filters.release_year.getD "")
    | none => false
  else true

/-- One step of the genre counting loop of getPopularGenres: the update
`genreCounts[g] = (genreCounts[g] || 0) + 1` on an object embedded as an
association list in key insertion order; an existing key keeps its
position, a new key is appended. -/
def bumpCount : List (String × Nat) → String → List (String × Nat)
  | [], g => [(g, 1)]
  | (k, n) :: rest, g =>
    if k = g then (k, n + 1) :: rest else (k, n) :: bumpCount rest g

/-- The forEach loop of getPopularGenres over the items, threading the
accumulated genre counts; the guard `if (item.genre)` skips items whose
genre is absent or the empty string. -/
def countGenresAux : List (String × Nat) → List MediaItem → List (String × Nat)
  | acc, [] => acc
  | acc, i :: rest =>
    countGenresAux (if jsTruthy i.genre then bumpCount acc (i.genre.getD "") else acc) rest

/-- The genre-count object of getPopularGenres, as an association list in
key insertion order. -/
def countGenres (items : List MediaItem) : List (String × Nat) :=
  countGenresAux [] items

/-- Looks a key up in an association list of counts, defaulting to 0. -/
def lookupCount : List (String × Nat) → String → Nat
  | [], _ => 0
  | (k, n) :: rest, g => if k = g then n else lookupCount rest g

/-- Accumulator loop listing genres in order of first occurrence,
skipping absent and empty genres exactly as the counting loop does. -/
def firstSeenAux : List String → List MediaItem → List String
  | acc, [] => acc
  | acc, i :: rest =>
    firstSeenAux
      (if jsTruthy i.genre then
        (if (i.genre.getD "") ∈ acc then acc else acc ++ [i.genre.getD ""])
      else acc) rest

/-- The genres of the input in order of first occurrence (absent and
empty genres skipped). -/
def firstSeenGenres (items : List MediaItem) : List String :=
  firstSeenAux [] items

/-- Position of a string in a list (length of the list when absent). -/
def idxIn : List String → String → Nat
  | [], _ => 0
  | x :: xs, g => if x = g then 0 else idxIn xs g + 1

/-- Numeric value of a list of decimal digit characters. -/
def digitsVal (l : List Char) : Nat :=
  l.foldl (fun acc c => acc * 10 + (c.toNat - 48)) 0

/-- Whether a string is an ECMAScript integer index: the canonical
decimal representation of a natural number up to 2 to the 53rd minus one.
Object property enumeration (and hence Object.entries) lists such keys
first, in ascending numeric order, before all other string keys in
insertion order. -/
def isArrayIndexKey (s : String) : Bool :=
  decide (s ≠ "") && s.toList.all Char.isDigit &&
    (decide (s = "0") || decide (s.toList.head? ≠ some '0')) &&
    decide (digitsVal s.toList ≤ 2 ^ 53 - 1)

/-- Ascending numeric comparison of two integer-index entries. -/
def numKeyCompare (a b : String × Nat) : Ordering :=
  if digitsVal a.1.toList < digitsVal b.1.toList then .lt
  else if digitsVal b.1.toList < digitsVal a.1.toList then .gt
  else .eq

/-- Model of the ECMAScript own-property enumeration order underlying
Object.entries on an ordinary object with string keys: integer-index keys
in ascending numeric order first, then the remaining keys in insertion
order. -/
def jsEntriesOrder (l : List (String × Nat)) : List (String × Nat) :=
  sortCmp numKeyCompare (l.filter (fun e => isArrayIndexKey e.1))
    ++ l.filter (fun e => !isArrayIndexKey e.1)

/-- The comparator `([, a], [, b]) => b - a` of getPopularGenres, whose
sign sorts entries by descending count, mapped to a three-way comparison
(negative difference to lt, positive to gt, zero to eq). -/
def countDescCompare (a b : String × Nat) : Ordering :=
  if b.2 < a.2 then .lt else if a.2 < b.2 then .gt else .eq

/-- getPopularGenres from searchUtils.ts: count genres with the guarded
forEach loop, enumerate the count object with Object.entries, stable-sort
the entries by descending count, truncate to the limit and keep the
genre names.  The limit parameter defaults to 10 at the call sites and is
embedded as an explicit natural number, for which Array.prototype.slice
with start 0 is List.take. -/
def getPopularGenres (items : List MediaItem) (limit : Nat) : List String :=
  ((sortCmp countDescCompare (jsEntriesOrder (countGenres items))).take limit).map Prod.fst

/-- Number of items carrying the given genre. -/
def genreCountOf (items : List MediaItem) (g : String) : Nat :=
  items.countP (fun i => decide (i.genre = some g))

/-- The three-way comparison pattern shared by both branches of the
sortItems comparator: lt when the first key is below the second, gt when
above, eq otherwise. -/
def threeWayKey (a b : SortKey) : Ordering :=
  if keyLt a b then .lt else if keyLt b a then .gt else .eq

/-- The string key the comparator computes for the genre field:
`a.genre?.toLowerCase() || ""`. -/
def genreKey (i : MediaItem) : String :=
  jsOrEmpty (i.genre.map lowerStr)

/-- A concrete book item used to instantiate theorems on concrete data. -/
def sampleBook : MediaItem :=
  { id := "1", title := "Dune", creator := "Frank Herbert", media_type := "book",
    status := "owned", release_date := some "1965", genre := some "Science Fiction",
    description := some "Desert planet epic", user_id := "u1",
    created_at := "2023-01-01T00:30:00Z", updated_at := "2023-01-01T00:30:00Z" }

/-- A concrete item with no genre and no release date. -/
def sampleBare : MediaItem :=
  { id := "2", title := "Hades", creator := "Supergiant", media_type := "game",
    status := "currently_in_use", user_id := "u1",
    created_at := "2023-02-03T10:00:00Z", updated_at := "2023-02-03T10:00:00Z" }

/-- A concrete item with genre Rock. -/
def sampleRock : MediaItem :=
  { id := "3", title := "Nevermind", creator := "Nirvana", media_type := "music",
    status := "completed", release_date := some "1991", genre := some "Rock",
    user_id := "u1", created_at := "2022-12-31T23:00:00Z",
    updated_at := "2022-12-31T23:00:00Z" }

/-- A concrete item created at one in the morning of 2023-01-01 in a
zone five hours ahead of UTC, an instant still inside 2022 at UTC. -/
def sampleOffset : MediaItem :=
  { id := "7", title := "Offset", creator := "c", media_type := "book",
    status := "owned", created_at := "2023-01-01T01:00:00+05:00",
    updated_at := "2023-01-01T01:00:00+05:00" }

/-- A concrete item created at half past midnight UTC on 2023-01-01, an
instant after sampleOffset although its created_at string sorts before
the one of sampleOffset lexicographically. -/
def sampleUtc : MediaItem :=
  { id := "8", title := "Utc", creator := "c", media_type := "book",
    status := "owned", created_at := "2023-01-01T00:30:00Z",
    updated_at := "2023-01-01T00:30:00Z" }

theorem mem_insertCmp (cmp : α → α → Ordering) (a x : α) (l : List α) :
    x ∈ insertCmp cmp a l ↔ x = a ∨ x ∈ l := by
  induction l with
  | nil => simp [insertCmp]
  | cons b bs ih =>
    by_cases h : cmp a b = .gt
    · rw [insertCmp, if_pos h]
      simp only [List.mem_cons, ih]
      tauto
    · rw [insertCmp, if_neg h]
      simp only [List.mem_cons]

theorem mem_sortCmp (cmp : α → α → Ordering) (x : α) (l : List α) :
    x ∈ sortCmp cmp l ↔ x ∈ l := by
  induction l with
  | nil => exact Iff.rfl
  | cons b bs ih =>
    rw [sortCmp, mem_insertCmp]
    simp [ih]

theorem sortCmp_eq_self_of_all_eq (cmp : α → α → Ordering)
    (h : ∀ a b, cmp a b = .eq) (l : List α) : sortCmp cmp l = l := by
  induction l with
  | nil => rfl
  | cons a as ih =>
    rw [sortCmp, ih]
    cases as with
    | nil => rfl
    | cons b bs =>
      rw [insertCmp, if_neg (by simp [h])]

theorem insertCmp_filter (cmp : α → α → Ordering) (p : α → Bool) (a : α) (l : List α)
    (hp : ∀ b, p a = true → p b = true → cmp a b = .eq) :
    (insertCmp cmp a l).filter p = if p a then a :: l.filter p else l.filter p := by
  induction l with
  | nil =>
    cases h : p a <;> simp [insertCmp, List.filter_cons, h]
  | cons b bs ih =>
    by_cases hgt : cmp a b = .gt
    · have hnab : ¬(p a = true ∧ p b = true) := by
        rintro ⟨ha, hb⟩
        rw [hp b ha hb] at hgt
        exact Ordering.noConfusion hgt
      rw [insertCmp, if_pos hgt]
      cases ha : p a with
      | false =>
        simp only [ha, Bool.false_eq_true, if_false] at ih
        cases hb : p b <;>
          simp [List.filter_cons, hb, ha, ih]
      | true =>
        have hb : p b = false := by
          cases hbv : p b
          · rfl
          · exact absurd ⟨ha, hbv⟩ hnab
        simp only [ha] at ih
        simp [List.filter_cons, hb, ha, ih]
    · rw [insertCmp, if_neg hgt]
      cases ha : p a <;> simp [List.filter_cons, ha]

theorem sortCmp_filter_stable (cmp : α → α → Ordering) (p : α → Bool)
    (hp : ∀ a b, p a = true → p b = true → cmp a b = .eq) (l : List α) :
    (sortCmp cmp l).filter p = l.filter p := by
  induction l with
  | nil => rfl
  | cons a as ih =>
    rw [sortCmp, insertCmp_filter cmp p a _ (fun b ha hb => hp a b ha hb)]
    cases ha : p a <;> simp [List.filter_cons, ha, ih]

theorem insertCmp_pairwise (cmp : α → α → Ordering) (P : α → Prop) (Q : α → α → Prop)
    (L1 : ∀ x y, P x → P y → cmp x y = .gt → cmp y x = .lt)
    (L2 : ∀ x y z, P x → P y → P z → cmp x y = .lt → cmp y z = .lt → cmp x z = .lt)
    (L3 : ∀ x y z, P x → P y → P z → cmp x y = .lt → cmp y z = .eq → cmp x z = .lt)
    (L4 : ∀ x y z, P x → P y → P z → cmp x y = .eq → cmp y z = .lt → cmp x z = .lt)
    (L5 : ∀ x y z, P x → P y → P z → cmp x y = .eq → cmp y z = .eq → cmp x z = .eq)
    (a : α) (l : List α)
    (hPa : P a) (hPl : ∀ x ∈ l, P x)
    (hQa : ∀ c ∈ l, cmp a c = .eq → Q a c)
    (hs : l.Pairwise (fun x y => cmp x y = .lt ∨ (cmp x y = .eq ∧ Q x y))) :
    (insertCmp cmp a l).Pairwise (fun x y => cmp x y = .lt ∨ (cmp x y = .eq ∧ Q x y)) := by
  induction l with
  | nil => simp [insertCmp]
  | cons b bs ih =>
    rw [List.pairwise_cons] at hs
    obtain ⟨hb, hbs⟩ := hs
    have hPb : P b := hPl b (List.mem_cons_self b bs)
    have hPbs : ∀ x ∈ bs, P x := fun x hx => hPl x (List.mem_cons_of_mem b hx)
    by_cases hgt : cmp a b = .gt
    · rw [insertCmp, if_pos hgt]
      rw [List.pairwise_cons]
      constructor
      · intro y hy
        rcases (mem_insertCmp cmp a y bs).mp hy with heq | hy
        · rw [heq]
          exact Or.inl (L1 a b hPa hPb hgt)
        · exact hb y hy
      · exact ih hPbs (fun c hc => hQa c (List.mem_cons_of_mem b hc)) hbs
    · rw [insertCmp, if_neg hgt]
      rw [List.pairwise_cons]
      refine ⟨?_, List.pairwise_cons.mpr ⟨hb, hbs⟩⟩
      intro y hy
      rcases List.mem_cons.mp hy with heq | hy
      · rw [heq]
        cases hc : cmp a b with
        | lt => exact Or.inl rfl
        | eq => exact Or.inr ⟨rfl, hQa b (List.mem_cons_self b bs) hc⟩
        | gt => exact absurd hc hgt
      · have hPy : P y := hPbs y hy
        have hby := hb y hy
        cases hc : cmp a b with
        | lt =>
          rcases hby with hby | ⟨hby, _⟩
          · exact Or.inl (L2 a b y hPa hPb hPy hc hby)
          · exact Or.inl (L3 a b y hPa hPb hPy hc hby)
        | eq =>
          rcases hby with hby | ⟨hby, _⟩
          · exact Or.inl (L4 a b y hPa hPb hPy hc hby)
          · have hay := L5 a b y hPa hPb hPy hc hby
            exact Or.inr ⟨hay, hQa y (List.mem_cons_of_mem b hy) hay⟩
        | gt => exact absurd hc hgt

theorem sortCmp_pairwise (cmp : α → α → Ordering) (P : α → Prop) (Q : α → α → Prop)
    (L1 : ∀ x y, P x → P y → cmp x y = .gt → cmp y x = .lt)
    (L2 : ∀ x y z, P x → P y → P z → cmp x y = .lt → cmp y z = .lt → cmp x z = .lt)
    (L3 : ∀ x y z, P x → P y → P z → cmp x y = .lt → cmp y z = .eq → cmp x z = .lt)
    (L4 : ∀ x y z, P x → P y → P z → cmp x y = .eq → cmp y z = .lt → cmp x z = .lt)
    (L5 : ∀ x y z, P x → P y → P z → cmp x y = .eq → cmp y z = .eq → cmp x z = .eq)
    (l : List α) (hPl : ∀ x ∈ l, P x) (hQ : l.Pairwise Q) :
    (sortCmp cmp l).Pairwise (fun x y => cmp x y = .lt ∨ (cmp x y = .eq ∧ Q x y)) := by
  induction l with
  | nil => simp [sortCmp]
  | cons a as ih =>
    rw [List.pairwise_cons] at hQ
    obtain ⟨hQa, hQas⟩ := hQ
    rw [sortCmp]
    apply insertCmp_pairwise cmp P Q L1 L2 L3 L4 L5 a _ (hPl a (List.mem_cons_self a as))
    · intro x hx
      exact hPl x (List.mem_cons_of_mem a ((mem_sortCmp cmp x as).mp hx))
    · intro c hc _
      exact hQa c ((mem_sortCmp cmp c as).mp hc)
    · exact ih (fun x hx => hPl x (List.mem_cons_of_mem a hx)) hQas

theorem pairwise_getLast (S : α → α → Prop) (l : List α) (hp : l.Pairwise S) (x : α)
    (hx : x ∈ l) (hlast : ∀ y ∈ l, S x y → y = x) : l.getLast? = some x := by
  induction l with
  | nil => cases hx
  | cons a as ih =>
    rw [List.pairwise_cons] at hp
    obtain ⟨ha, has⟩ := hp
    cases as with
    | nil =>
      rcases List.mem_singleton.mp hx with rfl
      rfl
    | cons b bs =>
      have hxin : x ∈ b :: bs := by
        rcases List.mem_cons.mp hx with rfl | hx2
        · have hb : S x b := ha b (List.mem_cons_self b bs)
          have : b = x := hlast b (List.mem_cons_of_mem x (List.mem_cons_self b bs)) hb
          rw [← this]
          exact List.mem_cons_self b bs
        · exact hx2
      have : (b :: bs).getLast? = some x :=
        ih has hxin (fun y hy hS => hlast y (List.mem_cons_of_mem a hy) hS)
      rw [List.getLast?_cons_cons]
      exact this

theorem lexLt_irrefl (l : List Char) : lexLt l l = false := by
  induction l with
  | nil => rfl
  | cons a as ih => simp [lexLt, ih]

theorem keyLt_self (k : SortKey) : keyLt k k = false := by
  cases k with
  | str s => simp [keyLt, lexLt_irrefl]
  | num n => cases n <;> simp [keyLt]

/-- C3: sortItems is stable: for any set of items that all carry the same
computed sort key (expressed as a boolean selector p whose selected items
have pairwise equal keys), the selected subsequence of the output equals
the selected subsequence of the input, for every sort field and for both
directions. -/
theorem sortItems_stable (items : List MediaItem) (sortBy order : String)
    (p : MediaItem → Bool)
    (hp : ∀ x y, p x = true → p y = true → sortKey sortBy x = sortKey sortBy y) :
    (sortItems items sortBy order).filter p = items.filter p := by
  apply sortCmp_filter_stable
  intro a b ha hb
  have hk := hp a b ha hb
  simp [sortCompare, hk, keyLt_self]

/-- Witness for C3: two items titled Dune surrounding an item titled Zed
keep their relative order after a title sort. -/
theorem sortItems_stable_witness :
    (sortItems
        [{ id := "1", title := "Dune", creator := "A", media_type := "book", status := "owned" },
         { id := "2", title := "Zed", creator := "C", media_type := "book", status := "owned" },
         { id := "3", title := "Dune", creator := "B", media_type := "book", status := "owned" }]
        "title" "asc").filter (fun i => decide (i.title = "Dune")) =
      [{ id := "1", title := "Dune", creator := "A", media_type := "book", status := "owned" },
       { id := "2", title := "Zed", creator := "C", media_type := "book", status := "owned" },
       { id := "3", title := "Dune", creator := "B", media_type := "book", status := "owned" }].filter
        (fun i => decide (i.title = "Dune")) := by
  apply sortItems_stable
  intro x y hx hy
  have hx2 : x.title = "Dune" := of_decide_eq_true hx
  have hy2 : y.title = "Dune" := of_decide_eq_true hy
  simp [sortKey, hx2, hy2]

/-- C8: applying the filter engine with every FilterSpec field absent
returns the input list unchanged. -/
theorem applyFilters_all_absent_id (items : List MediaItem) :
    applyFilters items
      { media_type := none, status := none, genre := none, creator := none,
        release_year := none } = items := rfl

/-- C10: an empty-string value for the genre, creator or release_year
field is falsy, so any combination of absent and empty-string values for
those fields leaves the input unchanged, items without the corresponding
optional field included. -/
theorem applyFilters_empty_strings_id (items : List MediaItem) (g c y : Option String)
    (hg : g = none ∨ g = some "") (hc : c = none ∨ c = some "")
    (hy : y = none ∨ y = some "") :
    applyFilters items
      { media_type := none, status := none, genre := g, creator := c,
        release_year := y } = items := by
  have hg2 : jsTruthy g = false := by rcases hg with rfl | rfl <;> rfl
  have hc2 : jsTruthy c = false := by rcases hc with rfl | rfl <;> rfl
  have hy2 : jsTruthy y = false := by rcases hy with rfl | rfl <;> rfl
  simp [applyFilters, hg2, hc2, hy2]

/-- Witness for C10: all three fields set to the empty string leave a
list whose single item lacks both genre and release_date unchanged. -/
theorem applyFilters_empty_strings_id_witness :
    applyFilters [sampleBare]
      { media_type := none, status := none, genre := some "", creator := some "",
        release_year := some "" } = [sampleBare] :=
  applyFilters_empty_strings_id [sampleBare] (some "") (some "") (some "")
    (Or.inr rfl) (Or.inr rfl) (Or.inr rfl)

/-- C1 counterexample: a present media_type predicate of "movie" does not
restrict applyFilters at all; the single book item is returned although
its media_type differs, so applyFilters does not apply media_type (or
status) predicates. -/
theorem applyFilters_media_type_cex :
    applyFilters [sampleBook]
        { media_type := some "movie", status := some "wishlist", genre := none,
          creator := none, release_year := none } = [sampleBook]
      ∧ sampleBook.media_type ≠ "movie" ∧ sampleBook.status ≠ "wishlist" := by
  refine ⟨rfl, ?_, ?_⟩ <;> decide

/-- C1 (amended): applyFilters returns exactly the subsequence of the
input on which the three predicates it implements (genre, creator and
release_year, each active only when its field is truthy) all hold; the
media_type and status fields of the FilterSpec are ignored by this
function, and input order is preserved. -/
theorem applyFilters_characterization (items : List MediaItem) (f : SearchFilters) :
    applyFilters items f =
      items.filter (fun i => genrePred f i && creatorPred f i && yearPred f i) := by
  unfold applyFilters genrePred creatorPred yearPred
  cases h1 : jsTruthy f.genre <;> cases h2 : jsTruthy f.creator <;>
    cases h3 : jsTruthy f.release_year <;>
      simp [List.filter_filter, Bool.and_comm, Bool.and_left_comm, Bool.and_assoc]

/-- C5 counterexample: the release_year pass compares raw strings, so a
lower-case query "may" fails against a release_date containing "May"
even though case-insensitive containment holds, contradicting the claim
that release_year matches regardless of letter case. -/
theorem applyFilters_release_year_case_cex :
    applyFilters [{ sampleBook with release_date := some "2023-May" }]
        { media_type := none, status := none, genre := none, creator := none,
          release_year := some "may" } = []
      ∧ jsIncludes (lowerStr "2023-May") (lowerStr "may") = true := by
  exact ⟨rfl, by decide⟩

/-- C5 (amended): with all three substring fields present and non-empty,
an item is kept iff its genre is present and contains the genre value
case-insensitively, its creator contains the creator value
case-insensitively, and its release_date is present and contains the
release_year value case-sensitively; an item lacking genre or
release_date simply fails the corresponding predicate, no error arising
(the function is total). -/
theorem applyFilters_predicate_semantics (items : List MediaItem) (g c y : String)
    (hg : g ≠ "") (hc : c ≠ "") (hy : y ≠ "") (x : MediaItem) :
    x ∈ applyFilters items
        { media_type := none, status := none, genre := some g, creator := some c,
          release_year := some y } ↔
      x ∈ items ∧
        (∃ gx, x.genre = some gx ∧ jsIncludes (lowerStr gx) (lowerStr g) = true) ∧
        jsIncludes (lowerStr x.creator) (lowerStr c) = true ∧
        (∃ dx, x.release_date = some dx ∧ jsIncludes dx y = true) := by
  have hg2 : jsTruthy (some g) = true := by simp [jsTruthy, hg]
  have hc2 : jsTruthy (some c) = true := by simp [jsTruthy, hc]
  have hy2 : jsTruthy (some y) = true := by simp [jsTruthy, hy]
  simp only [applyFilters, hg2, hc2, hy2, if_true, Option.getD_some]
  simp only [List.mem_filter]
  cases hxg : x.genre <;> cases hxd : x.release_date <;> simp [hxg, hxd] <;> tauto

/-- Witness for C5: the sample book is kept by upper-cased genre and
creator substrings together with a year substring of its release date. -/
theorem applyFilters_predicate_semantics_witness :
    sampleBook ∈ applyFilters [sampleBook]
      { media_type := none, status := none, genre := some "Fi", creator := some "HER",
        release_year := some "1965" } :=
  (applyFilters_predicate_semantics [sampleBook] "Fi" "HER" "1965"
      (by decide) (by decide) (by decide) sampleBook).mpr
    ⟨by decide, ⟨"Science Fiction", rfl, by decide⟩, by decide, ⟨"1965", rfl, by decide⟩⟩

/-- C4 counterexample: an unrecognized sort field does not fall back to a
title sort; it leaves the list in input order, which differs from the
title-ascending order of the same list. -/
theorem sortItems_unknown_field_cex :
    sortItems
        [{ id := "1", title := "b", creator := "c", media_type := "book", status := "owned" },
         { id := "2", title := "a", creator := "c", media_type := "book", status := "owned" }]
        "bogus" "asc" ≠
      sortItems
        [{ id := "1", title := "b", creator := "c", media_type := "book", status := "owned" },
         { id := "2", title := "a", creator := "c", media_type := "book", status := "owned" }]
        "title" "asc" := by
  decide

/-- C4 (amended): for every sort field outside the recognized set, the
switch leaves both comparison keys at the empty string, the comparator
returns eq on every pair, and the stable sort returns the input list
unchanged; the call still does not fail. -/
theorem sortItems_unknown_field_id (items : List MediaItem) (sortBy order : String)
    (h : sortBy ≠ "title" ∧ sortBy ≠ "creator" ∧ sortBy ≠ "release_date" ∧
      sortBy ≠ "created_at" ∧ sortBy ≠ "genre") :
    sortItems items sortBy order = items := by
  have key : ∀ i : MediaItem, sortKey sortBy i = SortKey.str "" := by
    intro i
    obtain ⟨h1, h2, h3, h4, h5⟩ := h
    unfold sortKey
    split <;> simp_all
  have hk : keyLt (SortKey.str "") (SortKey.str "") = false := rfl
  apply sortCmp_eq_self_of_all_eq
  intro a b
  simp [sortCompare, key a, key b, hk]

/-- Witness for C4: a two-element list is returned unchanged under the
unrecognized sort field "bogus". -/
theorem sortItems_unknown_field_id_witness :
    sortItems
        [{ id := "1", title := "b", creator := "c", media_type := "book", status := "owned" },
         { id := "2", title := "a", creator := "c", media_type := "book", status := "owned" }]
        "bogus" "desc" =
      [{ id := "1", title := "b", creator := "c", media_type := "book", status := "owned" },
       { id := "2", title := "a", creator := "c", media_type := "book", status := "owned" }] :=
  sortItems_unknown_field_id _ "bogus" "desc" (by decide)

theorem charToLowerSpace (c : Char) : Char.toLower c = ' ' ↔ c = ' ' := by
  constructor
  · intro h
    by_contra hne
    simp only [Char.toLower] at h
    split at h
    · rename_i hc
      have hv : (c.toNat + 32).isValidChar := by
        left
        omega
      rw [Char.ofNat, dif_pos hv] at h
      have h2 := congrArg Char.toNat h
      have h32 : (Char.ofNatAux (c.toNat + 32) hv).toNat = c.toNat + 32 := rfl
      rw [h32] at h2
      have : c.toNat + 32 = 32 := h2
      omega
    · exact hne h
  · intro h
    subst h
    rfl

theorem splitSpaceChars_map_toLower (l : List Char) :
    splitSpaceChars (l.map Char.toLower) = (splitSpaceChars l).map (List.map Char.toLower) := by
  induction l with
  | nil => rfl
  | cons c cs ih =>
    by_cases h : c = ' '
    · subst h
      have hsp : Char.toLower ' ' = ' ' := rfl
      simp [splitSpaceChars, hsp, ih]
    · have h2 : Char.toLower c ≠ ' ' := fun hc => h ((charToLowerSpace c).mp hc)
      simp only [List.map_cons, splitSpaceChars, if_neg h2, if_neg h, ih]
      cases hs : splitSpaceChars cs <;> simp [hs]

/-- C2 counterexample: on the one-item list whose title is "a b", the
query built from "a", a tab character and "b" is rejected by fuzzySearch
(the tab is not a split point, so the single term contains the tab) but
accepted by the literal whitespace-tokenizing reference of the spec. -/
theorem fuzzySearch_whitespace_cex :
    fuzzySearch
        [{ id := "9", title := "a b", creator := "c", media_type := "book", status := "owned" }]
        "a\tb" = []
      ∧ fuzzySearchSpecWs
          [{ id := "9", title := "a b", creator := "c", media_type := "book", status := "owned" }]
          "a\tb" =
        [{ id := "9", title := "a b", creator := "c", media_type := "book", status := "owned" }] := by
  constructor <;> decide

/-- C2 (amended): fuzzySearch equals the reference matcher in which the
query is tokenized at the space character only (not at arbitrary
whitespace): a blank query returns the input unchanged and otherwise an
item is included iff every lower-cased non-empty space-separated term
occurs as a substring of its lower-cased composite text. -/
theorem fuzzySearch_eq_space_reference (items : List MediaItem) (query : String) :
    fuzzySearch items query = fuzzySearchSpecSpace items query := by
  by_cases h : jsTrim query = ""
  · simp [fuzzySearch, fuzzySearchSpecSpace, h]
  · have hterms : jsSplitSpace (lowerStr query) =
        (splitSpaceChars query.toList).map (fun t => String.mk (t.map Char.toLower)) := by
      unfold jsSplitSpace lowerStr
      rw [show (String.mk (query.toList.map Char.toLower)).toList =
          query.toList.map Char.toLower from rfl]
      rw [splitSpaceChars_map_toLower, List.map_map]
      rfl
    simp only [fuzzySearch, fuzzySearchSpecSpace, if_neg h, hterms]

theorem lexLt_nil_right (l : List Char) : lexLt l [] = false := by
  cases l <;> rfl

theorem lexLt_trans (a b c : List Char) (h1 : lexLt a b = true) (h2 : lexLt b c = true) :
    lexLt a c = true := by
  induction a generalizing b c with
  | nil =>
    cases c with
    | nil =>
      cases b with
      | nil => simpa [lexLt] using h1
      | cons y ys => simpa [lexLt_nil_right] using h2
    | cons z zs => rfl
  | cons x xs ih =>
    cases b with
    | nil => simp [lexLt] at h1
    | cons y ys =>
      cases c with
      | nil => simpa [lexLt_nil_right] using h2
      | cons z zs =>
        simp only [lexLt] at h1 h2 ⊢
        by_cases hxy : x < y
        · by_cases hyz : y < z
          · rw [if_pos (lt_trans hxy hyz)]
          · by_cases hzy : z < y
            · rw [if_neg hyz, if_pos hzy] at h2
              exact absurd h2 (by simp)
            · have hyz2 : y = z := le_antisymm (not_lt.mp hzy) (not_lt.mp hyz)
              rw [if_pos (hyz2 ▸ hxy)]
        · by_cases hyx : y < x
          · rw [if_neg hxy, if_pos hyx] at h1
            exact absurd h1 (by simp)
          · have hxy2 : x = y := le_antisymm (not_lt.mp hyx) (not_lt.mp hxy)
            rw [if_neg hxy, if_neg hyx] at h1
            by_cases hyz : y < z
            · rw [if_pos (hxy2 ▸ hyz)]
            · by_cases hzy : z < y
              · rw [if_neg hyz, if_pos hzy] at h2
                exact absurd h2 (by simp)
              · have hyz2 : y = z := le_antisymm (not_lt.mp hzy) (not_lt.mp hyz)
                rw [if_neg hyz, if_neg hzy] at h2
                have hxz : x = z := hxy2.trans hyz2
                have hnxz : ¬x < z := by rw [hxz]; exact lt_irrefl z
                have hnzx : ¬z < x := by rw [hxz]; exact lt_irrefl z
                rw [if_neg hnxz, if_neg hnzx]
                exact ih ys zs h1 h2

theorem eq_of_lexLt_not (a b : List Char) (h1 : lexLt a b = false) (h2 : lexLt b a = false) :
    a = b := by
  induction a generalizing b with
  | nil =>
    cases b with
    | nil => rfl
    | cons y ys => simp [lexLt] at h1
  | cons x xs ih =>
    cases b with
    | nil => simp [lexLt] at h2
    | cons y ys =>
      simp only [lexLt] at h1 h2
      by_cases hxy : x < y
      · rw [if_pos hxy] at h1
        exact absurd h1 (by simp)
      · by_cases hyx : y < x
        · rw [if_pos hyx] at h2
          exact absurd h2 (by simp)
        · have hx : x = y := le_antisymm (not_lt.mp hyx) (not_lt.mp hxy)
          rw [if_neg hxy, if_neg hyx] at h1
          rw [if_neg hyx, if_neg hxy] at h2
          rw [hx, ih ys h1 h2]

theorem tw_lt_iff (a b : SortKey) : threeWayKey a b = .lt ↔ keyLt a b = true := by
  by_cases h : keyLt a b <;> by_cases h2 : keyLt b a <;> simp [threeWayKey, h, h2]

theorem tw_gt_iff (a b : SortKey) :
    threeWayKey a b = .gt ↔ (keyLt a b = false ∧ keyLt b a = true) := by
  by_cases h : keyLt a b <;> by_cases h2 : keyLt b a <;> simp [threeWayKey, h, h2]

theorem tw_eq_iff (a b : SortKey) :
    threeWayKey a b = .eq ↔ (keyLt a b = false ∧ keyLt b a = false) := by
  by_cases h : keyLt a b <;> by_cases h2 : keyLt b a <;> simp [threeWayKey, h, h2]

theorem tw_flip_gt (a b : SortKey) (h : threeWayKey a b = .gt) : threeWayKey b a = .lt := by
  rcases (tw_gt_iff a b).mp h with ⟨_, h2⟩
  exact (tw_lt_iff b a).mpr h2

theorem str_eq_of_tw_eq (a b : String) (h : threeWayKey (.str a) (.str b) = .eq) : a = b := by
  rcases (tw_eq_iff _ _).mp h with ⟨h1, h2⟩
  have hl : a.toList = b.toList := eq_of_lexLt_not a.toList b.toList h1 h2
  cases a with
  | mk da =>
    cases b with
    | mk db => exact congrArg String.mk hl

theorem sortCompare_eq_tw (sortBy order : String) (x y : MediaItem) :
    sortCompare sortBy order x y =
      if order = "asc" then threeWayKey (sortKey sortBy x) (sortKey sortBy y)
      else threeWayKey (sortKey sortBy y) (sortKey sortBy x) := rfl

theorem sortCompare_gt_flip (sortBy order : String) (x y : MediaItem)
    (h : sortCompare sortBy order x y = .gt) : sortCompare sortBy order y x = .lt := by
  rw [sortCompare_eq_tw] at h ⊢
  by_cases ho : order = "asc"
  · rw [if_pos ho] at h ⊢
    exact tw_flip_gt _ _ h
  · rw [if_neg ho] at h ⊢
    exact tw_flip_gt _ _ h

theorem tw_self_eq (k : SortKey) : threeWayKey k k = .eq :=
  (tw_eq_iff k k).mpr ⟨keyLt_self k, keyLt_self k⟩

theorem lowerStr_eq_empty_iff (s : String) : lowerStr s = "" ↔ s = "" := by
  constructor
  · intro h
    have h2 : s.toList.map Char.toLower = [] := congrArg String.toList h
    have h3 : s.toList = [] := List.map_eq_nil_iff.mp h2
    cases s with
    | mk data => exact congrArg String.mk h3
  · intro h
    rw [h]
    rfl

theorem sortCompare_str_lt_lt (sortBy order : String)
    (hstr : ∀ i : MediaItem, ∃ s, sortKey sortBy i = SortKey.str s)
    (x y z : MediaItem)
    (h1 : sortCompare sortBy order x y = .lt) (h2 : sortCompare sortBy order y z = .lt) :
    sortCompare sortBy order x z = .lt := by
  obtain ⟨sx, hx⟩ := hstr x
  obtain ⟨sy, hy⟩ := hstr y
  obtain ⟨sz, hz⟩ := hstr z
  rw [sortCompare_eq_tw, hx, hy] at h1
  rw [sortCompare_eq_tw, hy, hz] at h2
  rw [sortCompare_eq_tw, hx, hz]
  by_cases ho : order = "asc"
  · rw [if_pos ho] at h1 h2 ⊢
    have l1 : lexLt sx.toList sy.toList = true := (tw_lt_iff _ _).mp h1
    have l2 : lexLt sy.toList sz.toList = true := (tw_lt_iff _ _).mp h2
    exact (tw_lt_iff _ _).mpr (lexLt_trans _ _ _ l1 l2)
  · rw [if_neg ho] at h1 h2 ⊢
    have l1 : lexLt sy.toList sx.toList = true := (tw_lt_iff _ _).mp h1
    have l2 : lexLt sz.toList sy.toList = true := (tw_lt_iff _ _).mp h2
    exact (tw_lt_iff _ _).mpr (lexLt_trans _ _ _ l2 l1)

theorem sortCompare_str_lt_eq (sortBy order : String)
    (hstr : ∀ i : MediaItem, ∃ s, sortKey sortBy i = SortKey.str s)
    (x y z : MediaItem)
    (h1 : sortCompare sortBy order x y = .lt) (h2 : sortCompare sortBy order y z = .eq) :
    sortCompare sortBy order x z = .lt := by
  obtain ⟨sx, hx⟩ := hstr x
  obtain ⟨sy, hy⟩ := hstr y
  obtain ⟨sz, hz⟩ := hstr z
  rw [sortCompare_eq_tw, hx, hy] at h1
  rw [sortCompare_eq_tw, hy, hz] at h2
  rw [sortCompare_eq_tw, hx, hz]
  by_cases ho : order = "asc"
  · rw [if_pos ho] at h1 h2 ⊢
    have he : sy = sz := str_eq_of_tw_eq sy sz h2
    rw [← he]
    exact h1
  · rw [if_neg ho] at h1 h2 ⊢
    have he : sz = sy := str_eq_of_tw_eq sz sy h2
    rw [he]
    exact h1

theorem sortCompare_str_eq_lt (sortBy order : String)
    (hstr : ∀ i : MediaItem, ∃ s, sortKey sortBy i = SortKey.str s)
    (x y z : MediaItem)
    (h1 : sortCompare sortBy order x y = .eq) (h2 : sortCompare sortBy order y z = .lt) :
    sortCompare sortBy order x z = .lt := by
  obtain ⟨sx, hx⟩ := hstr x
  obtain ⟨sy, hy⟩ := hstr y
  obtain ⟨sz, hz⟩ := hstr z
  rw [sortCompare_eq_tw, hx, hy] at h1
  rw [sortCompare_eq_tw, hy, hz] at h2
  rw [sortCompare_eq_tw, hx, hz]
  by_cases ho : order = "asc"
  · rw [if_pos ho] at h1 h2 ⊢
    have he : sx = sy := str_eq_of_tw_eq sx sy h1
    rw [he]
    exact h2
  · rw [if_neg ho] at h1 h2 ⊢
    have he : sy = sx := str_eq_of_tw_eq sy sx h1
    rw [← he]
    exact h2

theorem sortCompare_str_eq_eq (sortBy order : String)
    (hstr : ∀ i : MediaItem, ∃ s, sortKey sortBy i = SortKey.str s)
    (x y z : MediaItem)
    (h1 : sortCompare sortBy order x y = .eq) (h2 : sortCompare sortBy order y z = .eq) :
    sortCompare sortBy order x z = .eq := by
  obtain ⟨sx, hx⟩ := hstr x
  obtain ⟨sy, hy⟩ := hstr y
  obtain ⟨sz, hz⟩ := hstr z
  rw [sortCompare_eq_tw, hx, hy] at h1
  rw [sortCompare_eq_tw, hy, hz] at h2
  rw [sortCompare_eq_tw, hx, hz]
  by_cases ho : order = "asc"
  · rw [if_pos ho] at h1 h2 ⊢
    rw [str_eq_of_tw_eq sx sy h1, str_eq_of_tw_eq sy sz h2]
    exact tw_self_eq _
  · rw [if_neg ho] at h1 h2 ⊢
    rw [str_eq_of_tw_eq sz sy h2, str_eq_of_tw_eq sy sx h1]
    exact tw_self_eq _

theorem sortItems_str_pairwise (sortBy order : String)
    (hstr : ∀ i : MediaItem, ∃ s, sortKey sortBy i = SortKey.str s)
    (items : List MediaItem) :
    (sortItems items sortBy order).Pairwise
      (fun a b => sortCompare sortBy order a b = .lt ∨
        (sortCompare sortBy order a b = .eq ∧ True)) := by
  apply sortCmp_pairwise (sortCompare sortBy order) (fun _ => True) (fun _ _ => True)
  · exact fun x y _ _ h => sortCompare_gt_flip sortBy order x y h
  · exact fun x y z _ _ _ => sortCompare_str_lt_lt sortBy order hstr x y z
  · exact fun x y z _ _ _ => sortCompare_str_lt_eq sortBy order hstr x y z
  · exact fun x y z _ _ _ => sortCompare_str_eq_lt sortBy order hstr x y z
  · exact fun x y z _ _ _ => sortCompare_str_eq_eq sortBy order hstr x y z
  · exact fun x _ => trivial
  · exact List.pairwise_iff_get.mpr (fun _ _ _ => trivial)

/-- C6 counterexample: the release_date branch of the comparator does not
lower-case its keys, so an upper-case "B" sorts before a lower-case "a"
in ascending order even though the case-insensitive order of the two
dates is the opposite; string fields therefore do not all compare
case-insensitively. -/
theorem sortItems_release_date_case_cex :
    sortItems
        [{ id := "1", title := "t1", creator := "c", media_type := "book",
           status := "owned", release_date := some "B" },
         { id := "2", title := "t2", creator := "c", media_type := "book",
           status := "owned", release_date := some "a" }]
        "release_date" "asc" =
      [{ id := "1", title := "t1", creator := "c", media_type := "book",
         status := "owned", release_date := some "B" },
       { id := "2", title := "t2", creator := "c", media_type := "book",
         status := "owned", release_date := some "a" }]
      ∧ lexLt (lowerStr "a").toList (lowerStr "B").toList = true := by
  constructor
  · decide
  · decide

/-- C6 (amended): the title, creator and genre keys compare
case-insensitively (items whose field values agree up to case tie), while
release_date compares case-sensitively on the raw string; absent
release_date and genre values sort as the empty string, so sorting by
genre descending puts the unique item without a genre last, and sorting
by genre ascending yields a list in which every item preceding an
empty-genre-key item has an empty genre key as well (the genre-less
items cluster at the start). -/
theorem sortItems_case_and_optional (items : List MediaItem) (ord : String) (x : MediaItem)
    (hx : x ∈ items) (hxg : x.genre = none)
    (huniq : ∀ y ∈ items, y ≠ x → jsTruthy y.genre = true) :
    (sortItems items "genre" "desc").getLast? = some x
    ∧ (∀ its : List MediaItem,
        (sortItems its "genre" "asc").Pairwise (fun a b => genreKey b = "" → genreKey a = ""))
    ∧ (∀ u v : MediaItem, lowerStr u.title = lowerStr v.title →
        sortCompare "title" ord u v = .eq)
    ∧ (∀ u v : MediaItem, lowerStr u.creator = lowerStr v.creator →
        sortCompare "creator" ord u v = .eq)
    ∧ (∀ u v : MediaItem, genreKey u = genreKey v → sortCompare "genre" ord u v = .eq)
    ∧ (∀ u v : MediaItem, jsOrEmpty u.release_date = jsOrEmpty v.release_date →
        sortCompare "release_date" ord u v = .eq) := by
  have hgstr : ∀ i : MediaItem, ∃ s, sortKey "genre" i = SortKey.str s :=
    fun i => ⟨genreKey i, rfl⟩
  have hkx : genreKey x = "" := by
    unfold genreKey
    rw [hxg]
    rfl
  have hky : ∀ y ∈ items, y ≠ x → genreKey y ≠ "" := by
    intro y hy hne
    have ht := huniq y hy hne
    unfold genreKey
    cases hyg : y.genre with
    | none => rw [hyg] at ht; exact absurd ht (by simp [jsTruthy])
    | some g =>
      rw [hyg] at ht
      have hgne : g ≠ "" := of_decide_eq_true ht
      have hlne : lowerStr g ≠ "" := fun hc => hgne ((lowerStr_eq_empty_iff g).mp hc)
      simp only [Option.map_some', jsOrEmpty, if_neg hlne]
      exact hlne
  refine ⟨?_, ?_, ?_, ?_, ?_, ?_⟩
  · apply pairwise_getLast _ _ (sortItems_str_pairwise "genre" "desc" hgstr items) x
    · exact (mem_sortCmp _ x items).mpr hx
    · intro y hy hS
      have hyi : y ∈ items := (mem_sortCmp _ y items).mp hy
      by_cases hyx : y = x
      · exact hyx
      · exfalso
        have hc : sortCompare "genre" "desc" x y =
            threeWayKey (SortKey.str (genreKey y)) (SortKey.str (genreKey x)) := rfl
        rcases hS with hlt | ⟨heq, _⟩
        · rw [hc] at hlt
          have hk := (tw_lt_iff _ _).mp hlt
          rw [hkx] at hk
          have : lexLt (genreKey y).toList [] = true := hk
          rw [lexLt_nil_right] at this
          exact Bool.noConfusion this
        · rw [hc] at heq
          have hk := str_eq_of_tw_eq _ _ heq
          rw [hkx] at hk
          exact hky y hyi hyx hk
  · intro its
    refine List.Pairwise.imp ?_ (sortItems_str_pairwise "genre" "asc" hgstr its)
    intro a b hS hkb
    have hc : sortCompare "genre" "asc" a b =
        threeWayKey (SortKey.str (genreKey a)) (SortKey.str (genreKey b)) := rfl
    rcases hS with hlt | ⟨heq, _⟩
    · rw [hc] at hlt
      have hk := (tw_lt_iff _ _).mp hlt
      rw [hkb] at hk
      have : lexLt (genreKey a).toList [] = true := hk
      rw [lexLt_nil_right] at this
      exact absurd this (by simp)
    · rw [hc] at heq
      have hk := str_eq_of_tw_eq _ _ heq
      rw [hk]
      exact hkb
  · intro u v h
    rw [sortCompare_eq_tw]
    have hk : sortKey "title" u = sortKey "title" v := by
      show SortKey.str (lowerStr u.title) = SortKey.str (lowerStr v.title)
      rw [h]
    by_cases ho : ord = "asc" <;> simp [ho, hk, tw_self_eq]
  · intro u v h
    rw [sortCompare_eq_tw]
    have hk : sortKey "creator" u = sortKey "creator" v := by
      show SortKey.str (lowerStr u.creator) = SortKey.str (lowerStr v.creator)
      rw [h]
    by_cases ho : ord = "asc" <;> simp [ho, hk, tw_self_eq]
  · intro u v h
    rw [sortCompare_eq_tw]
    have hk : sortKey "genre" u = sortKey "genre" v := by
      show SortKey.str (genreKey u) = SortKey.str (genreKey v)
      rw [h]
    by_cases ho : ord = "asc" <;> simp [ho, hk, tw_self_eq]
  · intro u v h
    rw [sortCompare_eq_tw]
    have hk : sortKey "release_date" u = sortKey "release_date" v := by
      show SortKey.str (jsOrEmpty u.release_date) = SortKey.str (jsOrEmpty v.release_date)
      rw [h]
    by_cases ho : ord = "asc" <;> simp [ho, hk, tw_self_eq]

/-- Witness for C6: on a three-item list whose only genre-less item is
the bare sample item, the descending genre sort puts that item last. -/
theorem sortItems_case_and_optional_witness :
    (sortItems [sampleBook, sampleRock, sampleBare] "genre" "desc").getLast? = some sampleBare
    ∧ (∀ its : List MediaItem,
        (sortItems its "genre" "asc").Pairwise (fun a b => genreKey b = "" → genreKey a = ""))
    ∧ (∀ u v : MediaItem, lowerStr u.title = lowerStr v.title →
        sortCompare "title" "desc" u v = .eq)
    ∧ (∀ u v : MediaItem, lowerStr u.creator = lowerStr v.creator →
        sortCompare "creator" "desc" u v = .eq)
    ∧ (∀ u v : MediaItem, genreKey u = genreKey v → sortCompare "genre" "desc" u v = .eq)
    ∧ (∀ u v : MediaItem, jsOrEmpty u.release_date = jsOrEmpty v.release_date →
        sortCompare "release_date" "desc" u v = .eq) :=
  sortItems_case_and_optional [sampleBook, sampleRock, sampleBare] "desc" sampleBare
    (by decide) rfl (by decide)

theorem createdCmp (x y : MediaItem) :
    sortCompare "created_at" "asc" x y =
      threeWayKey (SortKey.num (jsDateGetTime x.created_at))
        (SortKey.num (jsDateGetTime y.created_at)) := rfl

theorem keyLt_num_some (a b : Int) :
    keyLt (SortKey.num (some a)) (SortKey.num (some b)) = decide (a < b) := rfl

theorem num_lt_of_tw (tx ty : Int)
    (h : threeWayKey (SortKey.num (some tx)) (SortKey.num (some ty)) = .lt) : tx < ty := by
  have hk := (tw_lt_iff _ _).mp h
  rw [keyLt_num_some] at hk
  exact of_decide_eq_true hk

theorem num_eq_of_tw (tx ty : Int)
    (h : threeWayKey (SortKey.num (some tx)) (SortKey.num (some ty)) = .eq) : tx = ty := by
  rcases (tw_eq_iff _ _).mp h with ⟨h1, h2⟩
  rw [keyLt_num_some] at h1 h2
  have n1 := of_decide_eq_false h1
  have n2 := of_decide_eq_false h2
  omega

theorem tw_of_num_lt (tx ty : Int) (h : tx < ty) :
    threeWayKey (SortKey.num (some tx)) (SortKey.num (some ty)) = .lt := by
  apply (tw_lt_iff _ _).mpr
  rw [keyLt_num_some]
  exact decide_eq_true h

theorem tw_of_num_eq (tx ty : Int) (h : tx = ty) :
    threeWayKey (SortKey.num (some tx)) (SortKey.num (some ty)) = .eq := by
  apply (tw_eq_iff _ _).mpr
  rw [keyLt_num_some, keyLt_num_some]
  constructor
  · exact decide_eq_false (by omega)
  · exact decide_eq_false (by omega)

/-- C7: when every item in the list has a created_at string inside the
modelled unambiguous Date format, sorting by created_at ascending yields
a list that is pairwise ordered by the parsed instants: an item whose
instant is strictly earlier is never preceded by one whose instant is
strictly later, whatever the lexicographic order of the two strings. -/
theorem sortItems_created_at_chronological (items : List MediaItem)
    (hall : ∀ i ∈ items, (jsDateGetTime i.created_at).isSome = true) :
    (sortItems items "created_at" "asc").Pairwise
      (fun a b => ∀ ta tb : Int, jsDateGetTime a.created_at = some ta →
        jsDateGetTime b.created_at = some tb → ta ≤ tb) := by
  have hpw := sortCmp_pairwise (sortCompare "created_at" "asc")
      (fun i => (jsDateGetTime i.created_at).isSome = true) (fun _ _ => True)
      ?L1 ?L2 ?L3 ?L4 ?L5 items hall (List.pairwise_iff_get.mpr (fun _ _ _ => trivial))
  case L1 => exact fun x y _ _ h => sortCompare_gt_flip "created_at" "asc" x y h
  case L2 =>
    intro x y z hx hy hz h1 h2
    obtain ⟨tx, htx⟩ := Option.isSome_iff_exists.mp hx
    obtain ⟨ty, hty⟩ := Option.isSome_iff_exists.mp hy
    obtain ⟨tz, htz⟩ := Option.isSome_iff_exists.mp hz
    rw [createdCmp, htx, hty] at h1
    rw [createdCmp, hty, htz] at h2
    rw [createdCmp, htx, htz]
    exact tw_of_num_lt tx tz (lt_trans (num_lt_of_tw tx ty h1) (num_lt_of_tw ty tz h2))
  case L3 =>
    intro x y z hx hy hz h1 h2
    obtain ⟨tx, htx⟩ := Option.isSome_iff_exists.mp hx
    obtain ⟨ty, hty⟩ := Option.isSome_iff_exists.mp hy
    obtain ⟨tz, htz⟩ := Option.isSome_iff_exists.mp hz
    rw [createdCmp, htx, hty] at h1
    rw [createdCmp, hty, htz] at h2
    rw [createdCmp, htx, htz]
    have := num_lt_of_tw tx ty h1
    have := num_eq_of_tw ty tz h2
    exact tw_of_num_lt tx tz (by omega)
  case L4 =>
    intro x y z hx hy hz h1 h2
    obtain ⟨tx, htx⟩ := Option.isSome_iff_exists.mp hx
    obtain ⟨ty, hty⟩ := Option.isSome_iff_exists.mp hy
    obtain ⟨tz, htz⟩ := Option.isSome_iff_exists.mp hz
    rw [createdCmp, htx, hty] at h1
    rw [createdCmp, hty, htz] at h2
    rw [createdCmp, htx, htz]
    have := num_eq_of_tw tx ty h1
    have := num_lt_of_tw ty tz h2
    exact tw_of_num_lt tx tz (by omega)
  case L5 =>
    intro x y z hx hy hz h1 h2
    obtain ⟨tx, htx⟩ := Option.isSome_iff_exists.mp hx
    obtain ⟨ty, hty⟩ := Option.isSome_iff_exists.mp hy
    obtain ⟨tz, htz⟩ := Option.isSome_iff_exists.mp hz
    rw [createdCmp, htx, hty] at h1
    rw [createdCmp, hty, htz] at h2
    rw [createdCmp, htx, htz]
    have := num_eq_of_tw tx ty h1
    have := num_eq_of_tw ty tz h2
    exact tw_of_num_eq tx tz (by omega)
  refine hpw.imp ?_
  intro a b hS ta tb hta htb
  rw [createdCmp, hta, htb] at hS
  rcases hS with hlt | ⟨heq, _⟩
  · have := num_lt_of_tw ta tb hlt
    omega
  · have := num_eq_of_tw ta tb heq
    omega

/-- Witness for C7: the offset-bearing timestamp denotes the earlier
instant although it is the lexicographically larger string, and the sort
puts it first. -/
theorem sortItems_created_at_witness :
    ((sortItems [sampleUtc, sampleOffset] "created_at" "asc").Pairwise
      (fun a b => ∀ ta tb : Int, jsDateGetTime a.created_at = some ta →
        jsDateGetTime b.created_at = some tb → ta ≤ tb))
    ∧ sortItems [sampleUtc, sampleOffset] "created_at" "asc" = [sampleOffset, sampleUtc]
    ∧ lexLt sampleUtc.created_at.toList sampleOffset.created_at.toList = true :=
  ⟨sortItems_created_at_chronological [sampleUtc, sampleOffset] (by decide),
    by decide, by decide⟩

theorem bumpCount_keys (l : List (String × Nat)) (g : String) :
    (bumpCount l g).map Prod.fst =
      if g ∈ l.map Prod.fst then l.map Prod.fst else l.map Prod.fst ++ [g] := by
  induction l with
  | nil => simp [bumpCount]
  | cons kv rest ih =>
    obtain ⟨k, n⟩ := kv
    by_cases hk : k = g
    · subst hk
      simp [bumpCount]
    · rw [List.map_cons]
      rw [bumpCount, if_neg hk, List.map_cons, ih]
      by_cases hr : g ∈ rest.map Prod.fst
      · rw [if_pos hr, if_pos (List.mem_cons_of_mem k hr)]
      · rw [if_neg hr, if_neg ?_, List.cons_append]
        intro hc
        rcases List.mem_cons.mp hc with hc2 | hc2
        · exact hk hc2.symm
        · exact hr hc2

theorem lookupCount_bump (l : List (String × Nat)) (g h : String) :
    lookupCount (bumpCount l g) h =
      if h = g then lookupCount l h + 1 else lookupCount l h := by
  induction l with
  | nil =>
    by_cases hh : h = g
    · subst hh
      simp [bumpCount, lookupCount]
    · have : g ≠ h := fun hc => hh hc.symm
      simp [bumpCount, lookupCount, hh, this]
  | cons kv rest ih =>
    obtain ⟨k, n⟩ := kv
    by_cases hk : k = g
    · subst hk
      rw [bumpCount, if_pos rfl]
      by_cases hh : h = k
      · subst hh
        simp [lookupCount]
      · have : k ≠ h := fun hc => hh hc.symm
        simp [lookupCount, this, hh]
    · rw [bumpCount, if_neg hk]
      by_cases hkh : k = h
      · subst hkh
        rw [if_neg hk]
        simp [lookupCount]
      · simp [lookupCount, hkh, ih]

theorem countGenresAux_lookup (l : List MediaItem) (acc : List (String × Nat)) (g : String)
    (hg : g ≠ "") :
    lookupCount (countGenresAux acc l) g = lookupCount acc g + genreCountOf l g := by
  induction l generalizing acc with
  | nil => simp [countGenresAux, genreCountOf]
  | cons i rest ih =>
    rw [countGenresAux]
    cases hgen : i.genre with
    | none =>
      have ht : jsTruthy none = false := rfl
      rw [ht, if_neg (by simp)]
      rw [ih acc]
      have hp : (decide (i.genre = some g)) = false := by
        rw [hgen]
        simp
      simp [genreCountOf, List.countP_cons, hp]
    | some gi =>
      by_cases hgi : gi = ""
      · subst hgi
        have ht : jsTruthy (some "") = false := rfl
        rw [ht, if_neg (by simp)]
        rw [ih acc]
        have hp : (decide (i.genre = some g)) = false := by
          rw [hgen]
          simp
          exact fun hc => hg hc.symm
        simp [genreCountOf, List.countP_cons, hp]
      · have ht : jsTruthy (some gi) = true := by simp [jsTruthy, hgi]
        rw [ht, if_pos rfl]
        rw [ih (bumpCount acc (Option.getD (some gi) ""))]
        have hgd : Option.getD (some gi) "" = gi := rfl
        rw [hgd, lookupCount_bump]
        by_cases hgg : g = gi
        · subst hgg
          have hp : (decide (i.genre = some g)) = true := by
            rw [hgen]
            simp
          simp [genreCountOf, List.countP_cons, hp]
          omega
        · have hp : (decide (i.genre = some g)) = false := by
            rw [hgen]
            simp
            exact fun hc => hgg hc.symm
          simp [genreCountOf, List.countP_cons, hp, hgg]

theorem countGenresAux_keys_from (l : List MediaItem) (acc : List (String × Nat)) :
    ∀ g ∈ (countGenresAux acc l).map Prod.fst,
      g ∈ acc.map Prod.fst ∨ ∃ i ∈ l, i.genre = some g ∧ g ≠ "" := by
  induction l generalizing acc with
  | nil =>
    intro g hgm
    exact Or.inl hgm
  | cons i rest ih =>
    intro g hgm
    rw [countGenresAux] at hgm
    cases hgen : i.genre with
    | none =>
      rw [hgen] at hgm
      have ht : jsTruthy none = false := rfl
      rw [ht, if_neg (by simp)] at hgm
      rcases ih acc g hgm with h | ⟨j, hj, hjg⟩
      · exact Or.inl h
      · exact Or.inr ⟨j, List.mem_cons_of_mem i hj, hjg⟩
    | some gi =>
      rw [hgen] at hgm
      by_cases hgi : gi = ""
      · subst hgi
        have ht : jsTruthy (some "") = false := rfl
        rw [ht, if_neg (by simp)] at hgm
        rcases ih acc g hgm with h | ⟨j, hj, hjg⟩
        · exact Or.inl h
        · exact Or.inr ⟨j, List.mem_cons_of_mem i hj, hjg⟩
      · have ht : jsTruthy (some gi) = true := by simp [jsTruthy, hgi]
        rw [ht, if_pos rfl] at hgm
        rcases ih _ g hgm with h | ⟨j, hj, hjg⟩
        · rw [show Option.getD (some gi) "" = gi from rfl, bumpCount_keys] at h
          by_cases hr : gi ∈ acc.map Prod.fst
          · rw [if_pos hr] at h
            exact Or.inl h
          · rw [if_neg hr] at h
            rcases List.mem_append.mp h with h2 | h2
            · exact Or.inl h2
            · rcases List.mem_singleton.mp h2 with rfl
              exact Or.inr ⟨i, List.mem_cons_self i rest, hgen, hgi⟩
        · exact Or.inr ⟨j, List.mem_cons_of_mem i hj, hjg⟩

theorem countGenresAux_keys_nodup (l : List MediaItem) (acc : List (String × Nat))
    (hacc : (acc.map Prod.fst).Nodup) : ((countGenresAux acc l).map Prod.fst).Nodup := by
  induction l generalizing acc with
  | nil => exact hacc
  | cons i rest ih =>
    rw [countGenresAux]
    cases hgen : i.genre with
    | none =>
      have ht : jsTruthy none = false := rfl
      rw [ht, if_neg (by simp)]
      exact ih acc hacc
    | some gi =>
      by_cases hgi : gi = ""
      · subst hgi
        have ht : jsTruthy (some "") = false := rfl
        rw [ht, if_neg (by simp)]
        exact ih acc hacc
      · have ht : jsTruthy (some gi) = true := by simp [jsTruthy, hgi]
        rw [ht, if_pos rfl]
        apply ih
        rw [show Option.getD (some gi) "" = gi from rfl, bumpCount_keys]
        by_cases hr : gi ∈ acc.map Prod.fst
        · rw [if_pos hr]
          exact hacc
        · rw [if_neg hr]
          refine List.Nodup.append hacc (List.nodup_singleton gi) ?_
          intro a ha hb
          rcases List.mem_singleton.mp hb with rfl
          exact hr ha

theorem countGenresAux_keys_firstSeen (l : List MediaItem) (acc : List (String × Nat)) :
    (countGenresAux acc l).map Prod.fst = firstSeenAux (acc.map Prod.fst) l := by
  induction l generalizing acc with
  | nil => rfl
  | cons i rest ih =>
    rw [countGenresAux, firstSeenAux]
    cases hgen : i.genre with
    | none =>
      have ht : jsTruthy none = false := rfl
      rw [ht, if_neg (by simp), if_neg (by simp)]
      exact ih acc
    | some gi =>
      by_cases hgi : gi = ""
      · subst hgi
        have ht : jsTruthy (some "") = false := rfl
        rw [ht, if_neg (by simp), if_neg (by simp)]
        exact ih acc
      · have ht : jsTruthy (some gi) = true := by simp [jsTruthy, hgi]
        rw [ht, if_pos rfl, if_pos rfl]
        rw [ih, show Option.getD (some gi) "" = gi from rfl, bumpCount_keys]

theorem lookupCount_of_mem (l : List (String × Nat)) (g : String) (n : Nat)
    (hnd : (l.map Prod.fst).Nodup) (hm : (g, n) ∈ l) : lookupCount l g = n := by
  induction l with
  | nil => cases hm
  | cons kv rest ih =>
    obtain ⟨k, m⟩ := kv
    rw [List.map_cons, List.nodup_cons] at hnd
    obtain ⟨hk, hrest⟩ := hnd
    rcases List.mem_cons.mp hm with heq | hm2
    · injection heq with h1 h2
      subst h1
      subst h2
      simp [lookupCount]
    · have hne : k ≠ g := by
        intro hc
        subst hc
        exact hk (List.mem_map.mpr ⟨(k, n), hm2, rfl⟩)
      rw [lookupCount, if_neg hne]
      exact ih hrest hm2

theorem nodup_pairwise_idxIn (L : List String) (h : L.Nodup) :
    L.Pairwise (fun a b => idxIn L a < idxIn L b) := by
  induction L with
  | nil => exact List.Pairwise.nil
  | cons x xs ih =>
    rw [List.nodup_cons] at h
    obtain ⟨hx, hxs⟩ := h
    rw [List.pairwise_cons]
    constructor
    · intro b hb
      have hbx : ¬x = b := fun hc => hx (hc ▸ hb)
      rw [idxIn, if_pos rfl, idxIn, if_neg hbx]
      omega
    · refine List.Pairwise.imp_of_mem ?_ (ih hxs)
      intro a b ha hb hab
      have hax : ¬x = a := fun hc => hx (hc ▸ ha)
      have hbx : ¬x = b := fun hc => hx (hc ▸ hb)
      rw [idxIn, if_neg hax, idxIn, if_neg hbx]
      omega

theorem cdc_lt_iff (a b : String × Nat) : countDescCompare a b = .lt ↔ b.2 < a.2 := by
  unfold countDescCompare
  by_cases h1 : b.2 < a.2 <;> by_cases h2 : a.2 < b.2 <;> simp [h1, h2] <;> omega

theorem cdc_gt_iff (a b : String × Nat) : countDescCompare a b = .gt ↔ a.2 < b.2 := by
  unfold countDescCompare
  by_cases h1 : b.2 < a.2 <;> by_cases h2 : a.2 < b.2 <;> simp [h1, h2] <;> omega

theorem cdc_eq_iff (a b : String × Nat) : countDescCompare a b = .eq ↔ a.2 = b.2 := by
  unfold countDescCompare
  by_cases h1 : b.2 < a.2 <;> by_cases h2 : a.2 < b.2 <;> simp [h1, h2] <;> omega

theorem countGenres_entry (items : List MediaItem) (g : String) (n : Nat)
    (hm : (g, n) ∈ countGenres items) :
    g ≠ "" ∧ (∃ i ∈ items, i.genre = some g) ∧ n = genreCountOf items g := by
  have hkey : g ∈ (countGenres items).map Prod.fst := List.mem_map.mpr ⟨(g, n), hm, rfl⟩
  rcases countGenresAux_keys_from items [] g hkey with h | ⟨i, hi, hig, hgne⟩
  · simp at h
  · have hnd := countGenresAux_keys_nodup items [] (by simp)
    have hl := lookupCount_of_mem _ g n hnd hm
    have hcount := countGenresAux_lookup items [] g hgne
    rw [hl] at hcount
    exact ⟨hgne, ⟨i, hi, hig⟩, by simpa [lookupCount] using hcount⟩

theorem jsEntriesOrder_of_no_index (items : List MediaItem)
    (hno : ∀ i ∈ items, isArrayIndexKey (i.genre.getD "") = false) :
    jsEntriesOrder (countGenres items) = countGenres items := by
  have hall : ∀ e ∈ countGenres items, isArrayIndexKey e.1 = false := by
    intro e he
    rcases countGenres_entry items e.1 e.2 he with ⟨_, ⟨i, hi, hig⟩, _⟩
    have h2 := hno i hi
    rw [hig] at h2
    exact h2
  unfold jsEntriesOrder
  have h1 : (countGenres items).filter (fun e => isArrayIndexKey e.1) = [] := by
    rw [List.filter_eq_nil_iff]
    intro a ha
    simp [hall a ha]
  have h2 : (countGenres items).filter (fun e => !isArrayIndexKey e.1) = countGenres items := by
    rw [List.filter_eq_self]
    intro a ha
    simp [hall a ha]
  rw [h1, h2]
  rfl

/-- C9 (amended): when no genre name is a canonical integer string (the
case Object.entries would enumerate ahead of insertion order),
getPopularGenres returns at most N genres, pairwise ordered by
non-increasing frequency with ties between equally frequent genres broken
by first-seen order in the input list, and every returned genre is the
genre of some item; items without a genre (and the counting guard also
skips an empty-string genre) contribute to no count. -/
theorem getPopularGenres_spec (items : List MediaItem) (limit : Nat)
    (hno : ∀ i ∈ items, isArrayIndexKey (i.genre.getD "") = false) :
    (getPopularGenres items limit).length ≤ limit
    ∧ (getPopularGenres items limit).Pairwise
        (fun g1 g2 => genreCountOf items g2 ≤ genreCountOf items g1
          ∧ (genreCountOf items g1 = genreCountOf items g2 →
            idxIn (firstSeenGenres items) g1 < idxIn (firstSeenGenres items) g2))
    ∧ (∀ g ∈ getPopularGenres items limit, ∃ i ∈ items, i.genre = some g) := by
  have horder := jsEntriesOrder_of_no_index items hno
  have hnd : ((countGenres items).map Prod.fst).Nodup :=
    countGenresAux_keys_nodup items [] (by simp)
  have hkeysfs : (countGenres items).map Prod.fst = firstSeenGenres items :=
    countGenresAux_keys_firstSeen items []
  have hQ : (countGenres items).Pairwise
      (fun a b => idxIn (firstSeenGenres items) a.1 < idxIn (firstSeenGenres items) b.1) := by
    have hp := List.pairwise_map.mp (nodup_pairwise_idxIn _ hnd)
    rw [hkeysfs] at hp
    exact hp
  have hpw := sortCmp_pairwise countDescCompare (fun _ => True)
      (fun a b => idxIn (firstSeenGenres items) a.1 < idxIn (firstSeenGenres items) b.1)
      ?L1 ?L2 ?L3 ?L4 ?L5 (countGenres items) (fun x _ => trivial) hQ
  case L1 =>
    intro x y _ _ h
    exact (cdc_lt_iff y x).mpr ((cdc_gt_iff x y).mp h)
  case L2 =>
    intro x y z _ _ _ h1 h2
    have a1 := (cdc_lt_iff x y).mp h1
    have a2 := (cdc_lt_iff y z).mp h2
    exact (cdc_lt_iff x z).mpr (by omega)
  case L3 =>
    intro x y z _ _ _ h1 h2
    have a1 := (cdc_lt_iff x y).mp h1
    have a2 := (cdc_eq_iff y z).mp h2
    exact (cdc_lt_iff x z).mpr (by omega)
  case L4 =>
    intro x y z _ _ _ h1 h2
    have a1 := (cdc_eq_iff x y).mp h1
    have a2 := (cdc_lt_iff y z).mp h2
    exact (cdc_lt_iff x z).mpr (by omega)
  case L5 =>
    intro x y z _ _ _ h1 h2
    have a1 := (cdc_eq_iff x y).mp h1
    have a2 := (cdc_eq_iff y z).mp h2
    exact (cdc_eq_iff x z).mpr (by omega)
  have hout : getPopularGenres items limit =
      ((sortCmp countDescCompare (countGenres items)).take limit).map Prod.fst := by
    unfold getPopularGenres
    rw [horder]
  refine ⟨?_, ?_, ?_⟩
  · rw [hout, List.length_map, List.length_take]
    exact min_le_left _ _
  · rw [hout]
    apply List.pairwise_map.mpr
    have htake := List.Pairwise.sublist (List.take_sublist limit _) hpw
    refine List.Pairwise.imp_of_mem ?_ htake
    intro a b ha hb hS
    have hae : a ∈ countGenres items :=
      (mem_sortCmp _ _ _).mp (List.Sublist.mem ha (List.take_sublist limit _))
    have hbe : b ∈ countGenres items :=
      (mem_sortCmp _ _ _).mp (List.Sublist.mem hb (List.take_sublist limit _))
    rcases countGenres_entry items a.1 a.2 hae with ⟨_, _, hacount⟩
    rcases countGenres_entry items b.1 b.2 hbe with ⟨_, _, hbcount⟩
    constructor
    · rcases hS with hlt | ⟨heq, _⟩
      · have := (cdc_lt_iff a b).mp hlt
        omega
      · have := (cdc_eq_iff a b).mp heq
        omega
    · intro hcnt
      rcases hS with hlt | ⟨heq, hQab⟩
      · have := (cdc_lt_iff a b).mp hlt
        omega
      · exact hQab
  · intro g hg
    rw [hout] at hg
    rcases List.mem_map.mp hg with ⟨a, ha, rfl⟩
    have hae : a ∈ countGenres items :=
      (mem_sortCmp _ _ _).mp (List.Sublist.mem ha (List.take_sublist limit _))
    rcases countGenres_entry items a.1 a.2 hae with ⟨_, hex, _⟩
    exact hex

/-- C9 counterexample: with one Action item seen first and one item of
genre "42" seen second, both genres have count one, yet the function
returns "42" first because Object.entries enumerates integer-index keys
ahead of insertion order; the tie is not broken by first-seen order. -/
theorem getPopularGenres_tie_cex :
    getPopularGenres
        [{ id := "1", title := "t1", creator := "c", media_type := "movie",
           status := "owned", genre := some "Action" },
         { id := "2", title := "t2", creator := "c", media_type := "movie",
           status := "owned", genre := some "42" }] 2 = ["42", "Action"]
    ∧ firstSeenGenres
        [{ id := "1", title := "t1", creator := "c", media_type := "movie",
           status := "owned", genre := some "Action" },
         { id := "2", title := "t2", creator := "c", media_type := "movie",
           status := "owned", genre := some "42" }] = ["Action", "42"]
    ∧ genreCountOf
        [{ id := "1", title := "t1", creator := "c", media_type := "movie",
           status := "owned", genre := some "Action" },
         { id := "2", title := "t2", creator := "c", media_type := "movie",
           status := "owned", genre := some "42" }] "Action" = 1
    ∧ genreCountOf
        [{ id := "1", title := "t1", creator := "c", media_type := "movie",
           status := "owned", genre := some "Action" },
         { id := "2", title := "t2", creator := "c", media_type := "movie",
           status := "owned", genre := some "42" }] "42" = 1 := by
  refine ⟨?_, ?_, ?_, ?_⟩ <;> decide

/-- Witness for C9: a three-item list with two Rock items and one
Science Fiction item, none of whose genre names is an integer string. -/
theorem getPopularGenres_spec_witness :
    (getPopularGenres [sampleRock, sampleBook, sampleRock] 10).length ≤ 10
    ∧ (getPopularGenres [sampleRock, sampleBook, sampleRock] 10).Pairwise
        (fun g1 g2 => genreCountOf [sampleRock, sampleBook, sampleRock] g2 ≤
            genreCountOf [sampleRock, sampleBook, sampleRock] g1
          ∧ (genreCountOf [sampleRock, sampleBook, sampleRock] g1 =
              genreCountOf [sampleRock, sampleBook, sampleRock] g2 →
            idxIn (firstSeenGenres [sampleRock, sampleBook, sampleRock]) g1 <
              idxIn (firstSeenGenres [sampleRock, sampleBook, sampleRock]) g2))
    ∧ (∀ g ∈ getPopularGenres [sampleRock, sampleBook, sampleRock] 10,
        ∃ i ∈ [sampleRock, sampleBook, sampleRock], i.genre = some g) :=
  getPopularGenres_spec [sampleRock, sampleBook, sampleRock] 10 (by decide)
